import Mathlib

/-!
Shallow embedding of the TextQuest retrieval-augmented question-answering
pipeline (src/modules/parser.py, src/modules/retriever.py,
src/modules/answer_generator.py), together with theorems settling the
specification claims about it.

Strings are modelled with Lean strings; all character-level operations are
implemented directly over the char list so that the kernel can evaluate them.
Regular expressions from the source are translated to explicit matching
functions with Python's leftmost / greedy / backtracking semantics.
Python dictionaries (which preserve insertion order) are modelled as
association lists with update-in-place semantics; a Python KeyError is
modelled as an `Except.error "KeyError"` result.
-/

namespace TextQuest

/-- ASCII whitespace, the characters Python treats as whitespace in
`str.strip` and in the regex class `\s` for the inputs considered here. -/
def isWS (c : Char) : Bool :=
  c = ' ' || c = '\t' || c = '\n' || c = '\r' || c = Char.ofNat 11 || c = Char.ofNat 12

def isDigitC (c : Char) : Bool := c.isDigit

/-- Regex word character `[A-Za-z0-9_]` (ASCII). -/
def isWordC (c : Char) : Bool := c.isAlpha || c.isDigit || c = '_'

/-- ASCII lower-casing of one character (Python `str.lower` on ASCII input). -/
def lowChar (c : Char) : Char :=
  if 'A' ≤ c && c ≤ 'Z' then Char.ofNat (c.toNat + 32) else c

/-- ASCII upper-casing of one character (Python `str.upper` on ASCII input). -/
def upChar (c : Char) : Char :=
  if 'a' ≤ c && c ≤ 'z' then Char.ofNat (c.toNat - 32) else c

def lowerStr (s : String) : String := String.mk (s.data.map lowChar)

def upperStr (s : String) : String := String.mk (s.data.map upChar)

def pyStripL (l : List Char) : List Char :=
  ((l.dropWhile isWS).reverse.dropWhile isWS).reverse

/-- Python `str.strip()`. -/
def pyStrip (s : String) : String := String.mk (pyStripL s.data)

/-- The character replacements of `normalize_text` (each Python `replace`
call there replaces one single character). -/
def normChar (c : Char) : Char :=
  if c = '–' || c = '—' then '-'
  else if c = '“' || c = '”' then '"'
  else if c = '‘' || c = '’' then Char.ofNat 39
  else c

/-- `re.sub(r'\s+', ' ', text)`: collapse every whitespace run to one space.
The flag records whether the previous character was whitespace. -/
def collapseWS : Bool → List Char → List Char
  | _, [] => []
  | prevWS, c :: cs =>
    if isWS c then
      if prevWS then collapseWS true cs else ' ' :: collapseWS true cs
    else c :: collapseWS false cs

/-- parser.py `normalize_text`. -/
def normalize_text (s : String) : String :=
  String.mk (pyStripL (collapseWS false (s.data.map normChar)))

/-- Split a char list at newline characters (Python `str.splitlines` for
newline-separated text). -/
def splitOnNL : List Char → List (List Char)
  | [] => [[]]
  | c :: cs =>
    match splitOnNL cs with
    | [] => [[]]
    | g :: gs => if c = '\n' then [] :: g :: gs else (c :: g) :: gs

/-- parser.py lines 14-15: normalize each stripped line and drop empties. -/
def docLines (doc : String) : List String :=
  ((splitOnNL doc.data).map (fun l => normalize_text (pyStrip (String.mk l)))).filter
    (fun l => l ≠ "")

/-- Case-insensitive literal prefix match; the pattern is given lower-case.
Returns the remaining characters on success. -/
def ciLit : List Char → List Char → Option (List Char)
  | [], cs => some cs
  | _ :: _, [] => none
  | p :: ps, c :: cs => if lowChar c = p then ciLit ps cs else none

/-- The `\s*[-–—]?\s*` part shared by the PART and SECTION header regexes. -/
def afterDash (cs : List Char) : List Char :=
  let cs1 := cs.dropWhile isWS
  let cs2 :=
    match cs1 with
    | c :: r => if c = '-' || c = '–' || c = '—' then r else cs1
    | [] => cs1
  cs2.dropWhile isWS

/-- `re.match(r'^PART\s*[-–—]?\s*([\w\d]+)', line, re.IGNORECASE)`, returning
`group(1).upper()` on success (parser.py line 22-24). -/
def part_match (line : String) : Option String :=
  match ciLit ("part".data) line.data with
  | none => none
  | some rest =>
    let ws := (afterDash rest).takeWhile isWordC
    if ws.isEmpty then none else some (upperStr (String.mk ws))

/-- `re.match(r'^SECTION\s*[-–—]?\s*([\w\d]+)\s*(.*)', ...)` returning
`group(1)` (parser.py line 40-42; `group(2)` is never used). -/
def section_match (line : String) : Option String :=
  match ciLit ("section".data) line.data with
  | none => none
  | some rest =>
    let ws := (afterDash rest).takeWhile isWordC
    if ws.isEmpty then none else some (String.mk ws)

def isXChar (c : Char) : Bool := c = 'x' || c = '×' || c = '*'

/-- Does `\d+\s*[x×*]\s*\d+` match at the head of `cs`? -/
def mulAt (cs : List Char) : Bool :=
  let ds := cs.takeWhile isDigitC
  if ds.isEmpty then false
  else
    match (cs.drop ds.length).dropWhile isWS with
    | c :: r =>
      isXChar c &&
        (match r.dropWhile isWS with
         | d :: _ => isDigitC d
         | [] => false)
    | [] => false

/-- `re.search(r'\d+\s*[x×*]\s*\d+', s)` as a boolean (parser.py line 36). -/
def mulSearch : List Char → Bool
  | [] => false
  | c :: cs => mulAt (c :: cs) || mulSearch cs

def digitsToNat (ds : List Char) : Nat :=
  ds.foldl (fun n c => n * 10 + (c.toNat - 48)) 0

/-- Match `(\d+)\s*[x×*]\s*(\d+)` at the head of `cs`, returning the two
captured numbers.  Both `\d+` are greedy; shortening the first digit run can
never recover a match, so maximal-munch is exact here. -/
def findMulAt (cs : List Char) : Option (Nat × Nat) :=
  let ds := cs.takeWhile isDigitC
  if ds.isEmpty then none
  else
    match (cs.drop ds.length).dropWhile isWS with
    | c :: r =>
      if isXChar c then
        let ds2 := (r.dropWhile isWS).takeWhile isDigitC
        if ds2.isEmpty then none else some (digitsToNat ds, digitsToNat ds2)
      else none
    | [] => none

/-- `re.search(r'(\d+)\s*[x×*]\s*(\d+)', s)` with leftmost-match semantics
(parser.py line 168). -/
def findMul : List Char → Option (Nat × Nat)
  | [] => none
  | c :: cs =>
    match findMulAt (c :: cs) with
    | some r => some r
    | none => findMul cs

def isPrefixL : List Char → List Char → Bool
  | [], _ => true
  | _ :: _, [] => false
  | a :: as, b :: bs => a = b && isPrefixL as bs

/-- Python substring containment (`needle in hay`). -/
def containsL (needle : List Char) : List Char → Bool
  | [] => needle.isEmpty
  | c :: cs => isPrefixL needle (c :: cs) || containsL needle cs

/-- parser.py `estimate_marks`: first the multiplier pattern (per-item value
is `group(2)`), then the hard-coded list of `"<m> mark"` substrings, then the
default 1. -/
def estimate_marks (section_text : String) : Nat :=
  match findMul section_text.data with
  | some r => r.2
  | none =>
    let l := (lowerStr section_text).data
    match List.find?
        (fun m =>
          containsL ((toString m ++ " mark").data) l ||
          containsL ((toString m ++ " marks").data) l)
        [1, 2, 3, 4, 5, 6, 8, 10] with
    | some m => m
    | none => 1

def startsWithL (p : String) (l : List Char) : Bool := isPrefixL p.data l

/-- `re.search(r'^section [a-z]+ carries', l)` on the lowered line. -/
def sectionCarriesL (l : List Char) : Bool :=
  if isPrefixL ("section ".data) l then
    let r := l.drop 8
    let letters := r.takeWhile (fun c => c.isLower)
    !letters.isEmpty && isPrefixL (" carries".data) (r.drop letters.length)
  else false

/-- parser.py `is_instruction_line`: every pattern is `re.search` with an
anchored `^`, case-insensitively, so each is a prefix test on the lowered
line (`^answer (any|the)` means the prefix "answer any" or "answer the",
`^write (a|an|the)?` means the prefix "write "). -/
def is_instruction_line (line : String) : Bool :=
  let l := (lowerStr line).data
  startsWithL ("answer any") l || startsWithL ("answer the") l ||
  startsWithL ("choose") l || startsWithL ("fill in") l ||
  startsWithL ("rewrite") l || startsWithL ("rearrange") l ||
  startsWithL ("punctuate") l || startsWithL ("report") l ||
  startsWithL ("combine") l || startsWithL ("quote") l ||
  startsWithL ("match the") l || startsWithL ("complete the following") l ||
  startsWithL ("read the") l || startsWithL ("write ") l ||
  startsWithL ("identify") l || startsWithL ("make notes") l ||
  startsWithL ("paraphrase") l || startsWithL ("prepare") l ||
  startsWithL ("each question carries") l || startsWithL ("attempt any") l ||
  sectionCarriesL l

/-- `\s*(.+)` at the end of the question regex: greedy `\s*` first, and when
everything is whitespace, backtracking leaves the final character to `(.+)`. -/
def spacesRest (cs : List Char) : Option (List Char) :=
  match cs.dropWhile isWS with
  | r :: rs => some (r :: rs)
  | [] =>
    match cs.reverse with
    | [] => none
    | c :: _ => some [c]

/-- `[\.\)]?\s*(.+)`: prefer consuming the dot / close paren, backtrack to
not consuming it when the tail then fails. -/
def dotRest (cs : List Char) : Option (List Char) :=
  match cs with
  | c :: r =>
    if c = '.' || c = ')' then
      match spacesRest r with
      | some g2 => some g2
      | none => spacesRest cs
    else spacesRest cs
  | [] => spacesRest []

/-- `\)?` inside capture group 1, then the dot part.  Returns (group 1 so
far, group 2). -/
def closeRest (g1 : List Char) (cs : List Char) : Option (List Char × List Char) :=
  match cs with
  | ')' :: r =>
    (match dotRest r with
     | some g2 => some (g1 ++ [')'], g2)
     | none => (dotRest cs).map (fun g2 => (g1, g2)))
  | _ => (dotRest cs).map (fun g2 => (g1, g2))

/-- `[a-zA-Z]?` inside capture group 1, then the close-paren part. -/
def letterRest (g1 : List Char) (cs : List Char) : Option (List Char × List Char) :=
  match cs with
  | c :: r =>
    if c.isAlpha then
      match closeRest (g1 ++ [c]) r with
      | some res => some res
      | none => closeRest g1 cs
    else closeRest g1 cs
  | [] => closeRest g1 []

/-- Greedy `\d+` with backtracking: `rds` is the reversed digit run still
consumed; on failure release the last digit back onto the input (never going
below one digit). -/
def digitsTry (g1 : List Char) (rds : List Char) (cs : List Char) :
    Option (List Char × List Char) :=
  match rds with
  | [] => none
  | [d] => letterRest (g1 ++ [d]) cs
  | d :: rest =>
    match letterRest (g1 ++ rds.reverse) cs with
    | some res => some res
    | none => digitsTry g1 rest (d :: cs)

def qAttempt (g1 : List Char) (cs : List Char) : Option (List Char × List Char) :=
  let ds := cs.takeWhile isDigitC
  if ds.isEmpty then none else digitsTry g1 ds.reverse (cs.drop ds.length)

def isParenDotC (c : Char) : Bool := c = '(' || c = ')' || c = '.'

/-- `re.match(r'^(\(?\d+[a-zA-Z]?\)?)[\.\)]?\s*(.+)', line)` (parser.py line
64), returning `(group(1).strip("()."), group(2).strip())` as used on lines
66-67. -/
def q_match (line : String) : Option (String × String) :=
  let cs := line.data
  let res :=
    match cs with
    | '(' :: r =>
      (match qAttempt ['('] r with
       | some res => some res
       | none => qAttempt [] cs)
    | _ => qAttempt [] cs
  res.map (fun g =>
    (String.mk (((g.1.dropWhile isParenDotC).reverse.dropWhile isParenDotC).reverse),
     pyStrip (String.mk g.2)))

def isOptLetter (c : Char) : Bool :=
  ('a' ≤ c && c ≤ 'd') || ('A' ≤ c && c ≤ 'D')

/-- `\s+.+` at the end of the option regex. -/
def optTailPlus (cs : List Char) : Option (List Char) :=
  match cs with
  | c :: _ =>
    if isWS c then
      match cs.dropWhile isWS with
      | r :: rs => some (r :: rs)
      | [] =>
        match cs with
        | _ :: _ :: _ =>
          (match cs.reverse with
           | c2 :: _ => some [c2]
           | [] => none)
        | _ => none
    else none
  | [] => none

def optAttempt (cs : List Char) : Option (Char × List Char) :=
  match cs with
  | c :: r =>
    if isOptLetter c then
      match r with
      | ')' :: r2 =>
        (match optTailPlus r2 with
         | some g2 => some (c, g2)
         | none => (optTailPlus r).map (fun g2 => (c, g2)))
      | _ => (optTailPlus r).map (fun g2 => (c, g2))
    else none
  | [] => none

/-- `re.match(r'^\(?([a-dA-D])\)?\s+(.+)', line)` returning the option letter
(group 1) and group 2 (parser.py line 72 and line 142). -/
def opt_match (line : String) : Option (Char × List Char) :=
  match line.data with
  | '(' :: r =>
    (match optAttempt r with
     | some res => some res
     | none => optAttempt line.data)
  | _ => optAttempt line.data

/-- `"\n".join`. -/
def joinNL : List String → String
  | [] => ""
  | [s] => s
  | s :: rest => s ++ "\n" ++ joinNL rest

/-- parser.py `extract_options`. -/
def extract_options (question_text : String) : String :=
  let opts := (splitOnNL question_text.data).filterMap (fun lcs =>
    (opt_match (String.mk lcs)).map (fun g =>
      String.mk [upChar g.1] ++ ". " ++ String.mk g.2))
  match opts with
  | [] => ""
  | _ => joinNL opts

/-- The MCQ option-consuming `while` loop of parser.py lines 74-81: take the
maximal prefix of option-pattern lines (each appended stripped). -/
def takeOptions : List String → List String × List String
  | [] => ([], [])
  | l :: ls =>
    if (opt_match l).isSome then
      let r := takeOptions ls
      (pyStrip l :: r.1, r.2)
    else ([], l :: ls)

/-! ## The parser state machine -/

structure Q where
  number : String
  question : String
  marks : Nat
  is_mcq : Bool
deriving DecidableEq

abbrev SecDict := List (String × List Q)

abbrev SQ := List (String × SecDict)

/-- The mutable scan state of `parse_question_structure`:
`structured_questions`, `current_part`, `current_section`,
`section_marks_info`, `part_marks`.  A Python set of marks is a
duplicate-free list. -/
structure PState where
  sq : SQ
  cp : Option String
  cs : Option String
  smi : List (String × String)
  pm : List (String × List Nat)
deriving DecidableEq

/-- Ordered-dict lookup (first, and by construction only, binding). -/
def lookupS {α : Type} (k : String) : List (String × α) → Option α
  | [] => none
  | e :: rest => if e.1 = k then some e.2 else lookupS k rest

/-- Python `d[k] = v`: overwrite in place, else append. -/
def dictSet {α : Type} (d : List (String × α)) (k : String) (v : α) :
    List (String × α) :=
  match d with
  | [] => [(k, v)]
  | e :: rest => if e.1 = k then (k, v) :: rest else e :: dictSet rest k v

/-- Update the value at an existing key; identity when the key is absent
(only used where the key is known present). -/
def dictModify {α : Type} (d : List (String × α)) (k : String) (f : α → α) :
    List (String × α) :=
  match d with
  | [] => []
  | e :: rest => if e.1 = k then (e.1, f e.2) :: rest else e :: dictModify rest k f

/-- `structured_questions[p][s] = []` with a KeyError (None) when `p` is not
a key. -/
def sqSetSection (sq : SQ) (p s : String) : Option SQ :=
  match lookupS p sq with
  | none => none
  | some _ => some (dictModify sq p (fun d => dictSet d s []))

/-- `structured_questions[p][s].append(q)` with a KeyError when either key
is missing. -/
def sqAppend (sq : SQ) (p s : String) (q : Q) : Option SQ :=
  match lookupS p sq with
  | none => none
  | some d =>
    match lookupS s d with
    | none => none
    | some _ => some (dictModify sq p (fun d2 => dictModify d2 s (fun l => l ++ [q])))

/-- `part_marks[p].add(m)` with a KeyError when `p` is missing. -/
def pmAdd (pm : List (String × List Nat)) (p : String) (m : Nat) :
    Option (List (String × List Nat)) :=
  match lookupS p pm with
  | none => none
  | some _ => some (dictModify pm p (fun l => if m ∈ l then l else l ++ [m]))

/-- Append `" " ++ line` to the question text of the last list element
(parser.py line 106). -/
def modifyLastQ (l : List Q) (line : String) : List Q :=
  match l with
  | [] => []
  | [q] => [{ q with question := q.question ++ " " ++ line }]
  | q :: rest => q :: modifyLastQ rest line

/-- parser.py lines 104-106: fold a continuation line into the last open
question when `structured_questions.get(cp, {}).get(cs)` is a non-empty
list. -/
def contAppend : SQ → Option String → Option String → String → SQ
  | sq, some p, some s, line =>
    (match (lookupS p sq).bind (lookupS s) with
     | some (_ :: _) =>
       dictModify sq p (fun d => dictModify d s (fun qs => modifyLastQ qs line))
     | _ => sq)
  | sq, _, _, _ => sq

/-- The instruction-skip / question / continuation part of one loop
iteration (parser.py lines 58-108), after the fallback section was set up. -/
def stepBody (line : String) (rest : List String) (st : PState) :
    Except String (PState × List String) :=
  if is_instruction_line line then Except.ok (st, rest)
  else
    match q_match line with
    | some qres =>
      let opts := takeOptions rest
      let is_mcq := !opts.1.isEmpty
      let question :=
        if is_mcq then qres.2 ++ "\nOptions:\n" ++ joinNL opts.1 else qres.2
      let marks := estimate_marks ((st.cs.bind (fun s => lookupS s st.smi)).getD "")
      let pmStep : Except String PState :=
        match st.cp with
        | some p =>
          match pmAdd st.pm p marks with
          | none => Except.error "KeyError"
          | some pm2 => Except.ok { st with pm := pm2 }
        | none => Except.ok st
      match pmStep with
      | Except.error e => Except.error e
      | Except.ok st2 =>
        match st2.cp, st2.cs with
        | some p, some s =>
          match sqAppend st2.sq p s
              { number := qres.1, question := question, marks := marks,
                is_mcq := is_mcq } with
          | none => Except.error "KeyError"
          | some sq2 => Except.ok ({ st2 with sq := sq2 }, opts.2)
        | _, _ => Except.error "KeyError"
    | none =>
      Except.ok ({ st with sq := contAppend st.sq st.cp st.cs line }, rest)

/-- The fallback-section part of one loop iteration (parser.py lines 51-56):
with a current part and no current section, select "General", creating it
(and resetting its marks info) when absent from the part. -/
def stepAfterSection (line : String) (rest : List String) (st : PState) :
    Except String (PState × List String) :=
  match st.cp, st.cs with
  | some p, none =>
    match lookupS p st.sq with
    | none => Except.error "KeyError"
    | some d =>
      if (lookupS "General" d).isSome then
        stepBody line rest { st with cs := some "General" }
      else
        stepBody line rest
          { st with cs := some "General",
                    sq := dictModify st.sq p (fun dd => dictSet dd "General" []),
                    smi := dictSet st.smi "General" "" }
  | _, _ => stepBody line rest st

/-- One iteration of the `while i < len(lines)` loop.  The marks-line
lookahead (parser.py lines 33-38) consumes the next line whenever it matches
the multiplier pattern, before the SECTION test, and that consumption stands
even when the current line is not a section header. -/
def step (line : String) (rest : List String) (st : PState) :
    Except String (PState × List String) :=
  match part_match line with
  | some g1 =>
    let p := "Part " ++ g1
    Except.ok
      ({ sq := dictSet st.sq p [], cp := some p, cs := none,
         smi := st.smi, pm := dictSet st.pm p [] }, rest)
  | none =>
    let look : String × List String :=
      match rest with
      | next :: rest2 =>
        if mulSearch next.data then (next, rest2) else ("", next :: rest2)
      | [] => ("", [])
    match section_match line with
    | some num =>
      let s := "Section " ++ num
      match st.cp with
      | some p =>
        match sqSetSection st.sq p s with
        | none => Except.error "KeyError"
        | some sq2 =>
          Except.ok ({ st with sq := sq2, smi := dictSet st.smi s look.1,
                               cs := some s }, look.2)
      | none => Except.ok ({ st with cs := some s }, look.2)
    | none => stepAfterSection line look.2 st

/-- Run the line loop; fuel is the number of remaining iterations (each
iteration consumes at least one line, so `lines.length` fuel always
suffices; exhaustion is an explicit error so that no success is ever proved
about a truncated run). -/
def runLines : Nat → List String → PState → Except String PState
  | _, [], st => Except.ok st
  | 0, _ :: _, _ => Except.error "Fuel"
  | Nat.succ fuel, line :: rest, st =>
    match step line rest st with
    | Except.error e => Except.error e
    | Except.ok r => runLines fuel r.2 r.1

/-- The outer `for doc in documents` loop. -/
def runDocs : List String → PState → Except String PState
  | [], st => Except.ok st
  | doc :: docs, st =>
    let lines := docLines doc
    match runLines lines.length lines st with
    | Except.error e => Except.error e
    | Except.ok st2 => runDocs docs st2

def initState : PState :=
  { sq := [], cp := none, cs := none, smi := [], pm := [] }

def setMin (l : List Nat) : Nat :=
  match l with
  | [] => 0
  | x :: xs => xs.foldl Nat.min x

def setMax (l : List Nat) : Nat :=
  match l with
  | [] => 0
  | x :: xs => xs.foldl Nat.max x

/-- The per-part categorisation of parser.py lines 113-133 (the branches on
1 / 2 / 5 / ≥ 8 are kept as in the source even though several produce the
same suffix). -/
def partName (part : String) (marks : List Nat) : String :=
  match marks with
  | [] => part
  | [mark] =>
    if mark = 1 then part ++ " - Descriptive Answers"
    else if mark = 2 then part ++ " - Short Answer"
    else if mark = 5 then part ++ " - Descriptive Answers"
    else if 8 ≤ mark then part ++ " - Descriptive Answers"
    else part ++ " - Descriptive Answers"
  | _ => part ++ " - Questions (" ++ toString (setMin marks) ++ "-" ++
      toString (setMax marks) ++ " Marks)"

/-- The post-pass of parser.py lines 110-135. -/
def categorize (sq : SQ) (pm : List (String × List Nat)) : SQ :=
  sq.foldl (fun acc pe => dictSet acc (partName pe.1 ((lookupS pe.1 pm).getD [])) pe.2) []

/-- parser.py `parse_question_structure`, over the page contents of the
input documents. -/
def parse_question_structure (documents : List String) : Except String SQ :=
  match runDocs documents initState with
  | Except.error e => Except.error e
  | Except.ok st => Except.ok (categorize st.sq st.pm)

/-! ## The retriever (src/modules/retriever.py) -/

/-- A langchain `Document`: page content plus the page-number metadata. -/
structure PDoc where
  page_content : String
  page : Nat
deriving DecidableEq

def extractAux : Nat → List String → List PDoc
  | _, [] => []
  | i, t :: ts =>
    if pyStrip t ≠ "" then
      { page_content := "[Page " ++ toString i ++ "]\n" ++ t, page := i } ::
        extractAux (i + 1) ts
    else extractAux (i + 1) ts

/-- retriever.py `extract_text_data`: the input is the per-page extracted
text of the opened document, in page order; pages whose stripped text is
empty are skipped, with the (1-based) page counter still advancing. -/
def extract_text_data (pages : List String) : List PDoc × List String :=
  (extractAux 1 pages, [])

def FAISS_DIR : String := "faiss_indexes"

/-- retriever.py `get_faiss_paths`. -/
def get_faiss_paths (file_hash : String) : String × String :=
  (FAISS_DIR ++ "/" ++ file_hash ++ ".faiss",
   FAISS_DIR ++ "/" ++ file_hash ++ ".pkl")

/-- A persisted artifact: the FAISS directory blob saved by
`vectordb.save_local` or the pickled embeddings object. -/
inductive Blob where
  | faiss (chunks : List PDoc) (emb : String)
  | pkl (emb : String)
deriving DecidableEq

/-- A FAISS vector store: the indexed chunks and the embedding
configuration used to embed queries. -/
structure VDB where
  chunks : List PDoc
  emb : String
deriving DecidableEq

/-- Outcomes of the external-effect boundaries: is the embedding service
(model load plus `FAISS.from_documents`) reachable, and does the
`pickle.dump` write succeed.  Each artifact write is modelled as atomic. -/
structure BuildEnv where
  embedOk : Bool
  dumpOk : Bool

/-- Observable operations performed by `load_or_build_faiss`. -/
inductive Op where
  | extract | split | embed | saveIndex | savePkl | loadPkl | loadIndex
deriving DecidableEq

/-- `pickle.load` of the blob stored at the store path. -/
def pickleLoadB : Option Blob → String
  | some (Blob.pkl e) => e
  | some (Blob.faiss _ e) => e
  | none => ""

/-- `FAISS.load_local(index_path, embeddings, ...)`: the stored index with
the supplied embeddings. -/
def faissLoadLocal : Option Blob → String → VDB
  | some (Blob.faiss cs _), e => { chunks := cs, emb := e }
  | _, e => { chunks := [], emb := e }

/-- retriever.py `load_or_build_faiss`.  The filesystem is an association
list from path to artifact; the splitter (an external langchain component)
is a parameter; the result carries the final filesystem and the trace of
operations performed. -/
def load_or_build_faiss (env : BuildEnv) (splitter : List PDoc → List PDoc)
    (embedModel : String) (fs : List (String × Blob)) (pages : List String)
    (file_hash : String) :
    Except String VDB × List (String × Blob) × List Op :=
  let paths := get_faiss_paths file_hash
  if (lookupS paths.1 fs).isSome && (lookupS paths.2 fs).isSome then
    let embeddings := pickleLoadB (lookupS paths.2 fs)
    (Except.ok (faissLoadLocal (lookupS paths.1 fs) embeddings), fs,
     [Op.loadPkl, Op.loadIndex])
  else
    let docs := (extract_text_data pages).1
    let chunks := splitter docs
    if !env.embedOk then
      (Except.error "EmbeddingServiceError", fs, [Op.extract, Op.split, Op.embed])
    else
      let vdb : VDB := { chunks := chunks, emb := embedModel }
      let fs1 := dictSet fs paths.1 (Blob.faiss vdb.chunks vdb.emb)
      if !env.dumpOk then
        (Except.error "PickleDumpError", fs1,
         [Op.extract, Op.split, Op.embed, Op.saveIndex, Op.savePkl])
      else
        (Except.ok vdb, dictSet fs1 paths.2 (Blob.pkl embedModel),
         [Op.extract, Op.split, Op.embed, Op.saveIndex, Op.savePkl])

/-! ## The answer generator (src/modules/answer_generator.py) -/

structure ChainInput where
  query : String
  marks : Nat
  is_mcq : Bool
  options : String
deriving DecidableEq

structure ChainOutput where
  result : String
  source_documents : List PDoc
deriving DecidableEq

structure ARec where
  number : String
  question : String
  answer : String
  sources : List PDoc
  marks : Nat
deriving DecidableEq

abbrev ATree := List (String × List (String × List ARec))

/-- The dictionary passed to the QA chain (answer_generator.py lines 18-23). -/
def chainInput (q : Q) : ChainInput :=
  { query := q.question, marks := q.marks, is_mcq := q.is_mcq,
    options := if q.is_mcq then extract_options q.question else "" }

/-- The per-question try/except body: a service failure (the chain raising)
is recorded as an in-band error record with no sources. -/
def answerOne (chain : ChainInput → Except String ChainOutput) (q : Q) : ARec :=
  match chain (chainInput q) with
  | Except.ok r =>
    { number := q.number, question := q.question, answer := r.result,
      sources := r.source_documents, marks := q.marks }
  | Except.error e =>
    { number := q.number, question := q.question,
      answer := "❌ Error generating answer: " ++ e, sources := [], marks := q.marks }

/-- The inner two loops of `generate_answers` for one part. -/
def processSections (chain : ChainInput → Except String ChainOutput)
    (sections : SecDict) : List (String × List ARec) :=
  sections.foldl
    (fun acc se =>
      se.2.foldl (fun acc2 q => dictModify acc2 se.1 (fun l => l ++ [answerOne chain q]))
        (dictSet acc se.1 []))
    []

/-- answer_generator.py `generate_answers`. -/
def generate_answers (tree : SQ) (chain : ChainInput → Except String ChainOutput) :
    ATree :=
  tree.foldl (fun acc pe => dictSet acc pe.1 (processSections chain pe.2)) []

/-! ## Predicates used by the theorems -/

/-- The scan state has an open part whose keys are present in every
dictionary the loop body indexes into: under this invariant one loop
iteration can never raise. -/
def Ready (st : PState) : Prop :=
  ∃ p, st.cp = some p ∧ (lookupS p st.sq).isSome = true ∧
    (lookupS p st.pm).isSome = true ∧
    ∀ s d, st.cs = some s → lookupS p st.sq = some d → (lookupS s d).isSome = true

/-- The mark value of a question is in the image of `estimate_marks`, i.e.
it was produced from some section marks hint. -/
def QOk (q : Q) : Prop := ∃ s, q.marks = estimate_marks s

/-- Every question stored anywhere in the structure satisfies `QOk`. -/
def SQOk (sq : SQ) : Prop := ∀ pe ∈ sq, ∀ se ∈ pe.2, ∀ q ∈ se.2, QOk q

end TextQuest

namespace TextQuest

/-! ## Association-list lemmas -/

theorem lookupS_dictSet_self {α : Type} (d : List (String × α)) (k : String) (v : α) :
    lookupS k (dictSet d k v) = some v := by
  induction d with
  | nil => simp [dictSet, lookupS]
  | cons e rest ih =>
    simp only [dictSet]
    by_cases h : e.1 = k
    · rw [if_pos h]
      simp [lookupS]
    · rw [if_neg h]
      simp only [lookupS]
      rw [if_neg h]
      exact ih

theorem lookupS_dictSet_ne {α : Type} (d : List (String × α)) (k j : String) (v : α)
    (h : k ≠ j) : lookupS j (dictSet d k v) = lookupS j d := by
  induction d with
  | nil =>
    simp only [dictSet, lookupS]
    rw [if_neg h]
  | cons e rest ih =>
    simp only [dictSet]
    by_cases he : e.1 = k
    · have hne : e.1 ≠ j := by rw [he]; exact h
      rw [if_pos he]
      simp only [lookupS]
      rw [if_neg h, if_neg hne]
    · rw [if_neg he]
      simp only [lookupS]
      by_cases hj : e.1 = j
      · rw [if_pos hj, if_pos hj]
      · rw [if_neg hj, if_neg hj]
        exact ih

theorem lookupS_dictModify_self {α : Type} (d : List (String × α)) (k : String)
    (f : α → α) : lookupS k (dictModify d k f) = (lookupS k d).map f := by
  induction d with
  | nil => simp only [dictModify, lookupS, Option.map_none']
  | cons e rest ih =>
    simp only [dictModify]
    by_cases h : e.1 = k
    · rw [if_pos h]
      simp only [lookupS]
      rw [if_pos h, if_pos h]
      rfl
    · rw [if_neg h]
      simp only [lookupS]
      rw [if_neg h, if_neg h]
      exact ih

theorem lookupS_dictModify_ne {α : Type} (d : List (String × α)) (k j : String)
    (f : α → α) (h : k ≠ j) : lookupS j (dictModify d k f) = lookupS j d := by
  induction d with
  | nil => rfl
  | cons e rest ih =>
    simp only [dictModify]
    by_cases he : e.1 = k
    · have hne : e.1 ≠ j := by rw [he]; exact h
      rw [if_pos he]
      simp only [lookupS]
      rw [if_neg hne, if_neg hne]
    · rw [if_neg he]
      simp only [lookupS]
      by_cases hj : e.1 = j
      · rw [if_pos hj, if_pos hj]
      · rw [if_neg hj, if_neg hj]
        exact ih

theorem lookupS_dictModify_isSome {α : Type} (d : List (String × α)) (k j : String)
    (f : α → α) :
    (lookupS j (dictModify d k f)).isSome = (lookupS j d).isSome := by
  by_cases h : k = j
  · subst h
    rw [lookupS_dictModify_self]
    cases lookupS k d <;> rfl
  · rw [lookupS_dictModify_ne d k j f h]

theorem mem_dictSet {α : Type} {d : List (String × α)} {k : String} {v : α}
    {x : String × α} (h : x ∈ dictSet d k v) : x ∈ d ∨ x = (k, v) := by
  induction d with
  | nil =>
    simp only [dictSet] at h
    exact Or.inr (List.mem_singleton.mp h)
  | cons e rest ih =>
    simp only [dictSet] at h
    by_cases he : e.1 = k
    · rw [if_pos he] at h
      rcases List.mem_cons.mp h with h1 | h1
      · exact Or.inr h1
      · exact Or.inl (List.mem_cons_of_mem _ h1)
    · rw [if_neg he] at h
      rcases List.mem_cons.mp h with h1 | h1
      · exact Or.inl (h1 ▸ List.mem_cons_self _ _)
      · rcases ih h1 with h2 | h2
        · exact Or.inl (List.mem_cons_of_mem _ h2)
        · exact Or.inr h2

theorem mem_dictModify {α : Type} {d : List (String × α)} {k : String} {f : α → α}
    {x : String × α} (h : x ∈ dictModify d k f) :
    x ∈ d ∨ ∃ v, (k, v) ∈ d ∧ x = (k, f v) := by
  induction d with
  | nil =>
    simp only [dictModify] at h
    cases h
  | cons e rest ih =>
    simp only [dictModify] at h
    by_cases he : e.1 = k
    · rw [if_pos he] at h
      rcases List.mem_cons.mp h with h1 | h1
      · refine Or.inr ⟨e.2, ?_, ?_⟩
        · exact (by rw [← he]; exact List.mem_cons_self _ _ : (k, e.2) ∈ e :: rest)
        · rw [h1, he]
      · exact Or.inl (List.mem_cons_of_mem _ h1)
    · rw [if_neg he] at h
      rcases List.mem_cons.mp h with h1 | h1
      · exact Or.inl (h1 ▸ List.mem_cons_self _ _)
      · rcases ih h1 with h2 | h2
        · exact Or.inl (List.mem_cons_of_mem _ h2)
        · rcases h2 with ⟨v, hv, hx⟩
          exact Or.inr ⟨v, List.mem_cons_of_mem _ hv, hx⟩

theorem lookupS_of_mem_nodup {α : Type} {d : List (String × α)} {k : String} {v : α}
    (hd : (d.map Prod.fst).Nodup) (h : (k, v) ∈ d) : lookupS k d = some v := by
  induction d with
  | nil => cases h
  | cons e rest ih =>
    rcases List.mem_cons.mp h with h1 | h1
    · simp [lookupS, ← h1]
    · have hk : e.1 ≠ k := by
        intro he
        have : k ∈ rest.map Prod.fst := List.mem_map.mpr ⟨(k, v), h1, rfl⟩
        rw [List.map_cons, List.nodup_cons] at hd
        exact hd.1 (he ▸ this)
      have := ih (by rw [List.map_cons, List.nodup_cons] at hd; exact hd.2) h1
      simp [lookupS, hk, this]

/-! ## Parser state-machine lemmas -/

theorem takeOptions_len (ls : List String) : (takeOptions ls).2.length ≤ ls.length := by
  induction ls with
  | nil => exact Nat.le_refl 0
  | cons l ls ih =>
    by_cases h : (opt_match l).isSome = true
    · simp only [takeOptions, if_pos h]
      exact le_trans ih (Nat.le_succ _)
    · simp only [takeOptions, if_neg h]
      exact Nat.le_refl _

theorem pmAdd_some (pm : List (String × List Nat)) (p : String)
    (h : (lookupS p pm).isSome = true) (m : Nat) :
    pmAdd pm p m = some (dictModify pm p (fun l => if m ∈ l then l else l ++ [m])) := by
  unfold pmAdd
  cases hl : lookupS p pm with
  | none => rw [hl] at h; simp at h
  | some l => rfl

theorem sqSetSection_some (sq : SQ) (p : String) (d : SecDict)
    (hd : lookupS p sq = some d) (s : String) :
    sqSetSection sq p s = some (dictModify sq p (fun d2 => dictSet d2 s [])) := by
  unfold sqSetSection
  simp only [hd]

theorem sqAppend_some (sq : SQ) (p s : String) (d : SecDict)
    (hd : lookupS p sq = some d) (hs : (lookupS s d).isSome = true) (q : Q) :
    sqAppend sq p s q =
      some (dictModify sq p (fun d2 => dictModify d2 s (fun l => l ++ [q]))) := by
  unfold sqAppend
  simp only [hd]
  cases hl : lookupS s d with
  | none => rw [hl] at hs; simp at hs
  | some _ => rfl

theorem sqAppend_eq {sq : SQ} {p s : String} {q : Q} {sq2 : SQ}
    (h : sqAppend sq p s q = some sq2) :
    sq2 = dictModify sq p (fun d2 => dictModify d2 s (fun l => l ++ [q])) := by
  unfold sqAppend at h
  cases hl : lookupS p sq with
  | none =>
    simp only [hl] at h
    exact Option.noConfusion h
  | some d =>
    simp only [hl] at h
    cases hl2 : lookupS s d with
    | none =>
      simp only [hl2] at h
      exact Option.noConfusion h
    | some _ =>
      simp only [hl2, Option.some.injEq] at h
      exact h.symm

theorem contAppend_ready (sq : SQ) (p : String) (cs : Option String) (line : String)
    (d : SecDict) (hd : lookupS p sq = some d) :
    ∃ d2, lookupS p (contAppend sq (some p) cs line) = some d2 ∧
      ∀ s2, (lookupS s2 d2).isSome = (lookupS s2 d).isSome := by
  cases cs with
  | none => exact ⟨d, hd, fun s2 => rfl⟩
  | some s =>
    simp only [contAppend, hd, Option.some_bind]
    cases hl : lookupS s d with
    | none => exact ⟨d, hd, fun s2 => rfl⟩
    | some l =>
      cases l with
      | nil => exact ⟨d, hd, fun s2 => rfl⟩
      | cons q qs =>
        refine ⟨dictModify d s (fun x => modifyLastQ x line), ?_, ?_⟩
        · rw [lookupS_dictModify_self, hd]
          rfl
        · intro s2
          exact lookupS_dictModify_isSome d s s2 _

theorem mem_modifyLastQ (line : String) :
    ∀ (l : List Q), ∀ q ∈ modifyLastQ l line, ∃ q0 ∈ l, q.marks = q0.marks := by
  intro l
  induction l with
  | nil => intro q h; cases h
  | cons q0 rest ih =>
    cases rest with
    | nil =>
      intro q h
      have h2 : q = { q0 with question := q0.question ++ " " ++ line } :=
        List.mem_singleton.mp h
      exact ⟨q0, List.mem_cons_self _ _, by rw [h2]⟩
    | cons q1 rest2 =>
      intro q h
      simp only [modifyLastQ] at h
      rcases List.mem_cons.mp h with h1 | h1
      · exact ⟨q0, List.mem_cons_self _ _, by rw [h1]⟩
      · rcases ih q h1 with ⟨qq, hq, hm⟩
        exact ⟨qq, List.mem_cons_of_mem _ hq, hm⟩

theorem SQOk_dictSet_empty (sq : SQ) (k : String) (h : SQOk sq) :
    SQOk (dictSet sq k []) := by
  intro pe hpe se hse q hq
  rcases mem_dictSet hpe with h1 | h1
  · exact h pe h1 se hse q hq
  · subst h1
    exact absurd hse (List.not_mem_nil se)

theorem SQOk_setSection (sq : SQ) (p s : String) (h : SQOk sq) :
    SQOk (dictModify sq p (fun d => dictSet d s [])) := by
  intro pe hpe se hse q hq
  rcases mem_dictModify hpe with h1 | h1
  · exact h pe h1 se hse q hq
  · rcases h1 with ⟨v, hv, hx⟩
    subst hx
    rcases mem_dictSet hse with h2 | h2
    · exact h (p, v) hv se h2 q hq
    · subst h2
      exact absurd hq (List.not_mem_nil q)

theorem SQOk_append (sq : SQ) (p s : String) (q0 : Q) (h : SQOk sq) (hq0 : QOk q0) :
    SQOk (dictModify sq p (fun d => dictModify d s (fun l => l ++ [q0]))) := by
  intro pe hpe se hse q hq
  rcases mem_dictModify hpe with h1 | h1
  · exact h pe h1 se hse q hq
  · rcases h1 with ⟨v, hv, hx⟩
    subst hx
    rcases mem_dictModify hse with h2 | h2
    · exact h (p, v) hv se h2 q hq
    · rcases h2 with ⟨l, hl, hx2⟩
      subst hx2
      rcases List.mem_append.mp hq with h3 | h3
      · exact h (p, v) hv (s, l) hl q h3
      · rw [List.mem_singleton.mp h3]
        exact hq0

theorem SQOk_cont (sq : SQ) (cp cs : Option String) (line : String) (h : SQOk sq) :
    SQOk (contAppend sq cp cs line) := by
  cases cp with
  | none => cases cs with
    | none => exact h
    | some s => exact h
  | some p =>
    cases cs with
    | none => exact h
    | some s =>
      simp only [contAppend]
      cases hb : (lookupS p sq).bind (lookupS s) with
      | none => exact h
      | some l =>
        cases l with
        | nil => exact h
        | cons q0 qs =>
          intro pe hpe se hse q hq
          rcases mem_dictModify hpe with h1 | h1
          · exact h pe h1 se hse q hq
          · rcases h1 with ⟨v, hv, hx⟩
            subst hx
            rcases mem_dictModify hse with h2 | h2
            · exact h (p, v) hv se h2 q hq
            · rcases h2 with ⟨l, hl, hx2⟩
              subst hx2
              rcases mem_modifyLastQ line l q hq with ⟨q1, hq1, hm⟩
              rcases h (p, v) hv (s, l) hl q1 hq1 with ⟨str, hstr⟩
              exact ⟨str, by rw [hm, hstr]⟩

theorem Ready_part (sq0 : SQ) (g : String) (smi0 : List (String × String))
    (pm0 : List (String × List Nat)) :
    Ready { sq := dictSet sq0 ("Part " ++ g) [], cp := some ("Part " ++ g),
            cs := none, smi := smi0, pm := dictSet pm0 ("Part " ++ g) [] } := by
  refine ⟨"Part " ++ g, rfl, ?_, ?_, ?_⟩
  · show (lookupS ("Part " ++ g) (dictSet sq0 ("Part " ++ g) [])).isSome = true
    rw [lookupS_dictSet_self]
    rfl
  · show (lookupS ("Part " ++ g) (dictSet pm0 ("Part " ++ g) [])).isSome = true
    rw [lookupS_dictSet_self]
    rfl
  · intro s2 d2 hs2 _
    exact Option.noConfusion hs2

theorem Ready_section (sq0 : SQ) (p s : String) (d : SecDict)
    (smi2 : List (String × String)) (pm0 : List (String × List Nat))
    (hd : lookupS p sq0 = some d) (hpm : (lookupS p pm0).isSome = true) :
    Ready { sq := dictModify sq0 p (fun d2 => dictSet d2 s []), cp := some p,
            cs := some s, smi := smi2, pm := pm0 } := by
  refine ⟨p, rfl, ?_, hpm, ?_⟩
  · show (lookupS p (dictModify sq0 p (fun d2 => dictSet d2 s []))).isSome = true
    rw [lookupS_dictModify_self, hd]
    rfl
  · intro s2 d3 hs2 hd3
    replace hs2 : some s = some s2 := hs2
    cases hs2
    replace hd3 : lookupS p (dictModify sq0 p (fun d2 => dictSet d2 s [])) = some d3 := hd3
    rw [lookupS_dictModify_self, hd] at hd3
    replace hd3 : some (dictSet d s []) = some d3 := hd3
    cases hd3
    show (lookupS s (dictSet d s [])).isSome = true
    rw [lookupS_dictSet_self]
    rfl

theorem Ready_append (sq0 : SQ) (p s : String) (d : SecDict)
    (smi0 : List (String × String)) (pm0 : List (String × List Nat)) (q : Q) (m : Nat)
    (hd : lookupS p sq0 = some d) (hpm : (lookupS p pm0).isSome = true)
    (hsd : (lookupS s d).isSome = true) :
    Ready { sq := dictModify sq0 p (fun d2 => dictModify d2 s (fun l => l ++ [q])),
            cp := some p, cs := some s, smi := smi0,
            pm := dictModify pm0 p (fun l => if m ∈ l then l else l ++ [m]) } := by
  refine ⟨p, rfl, ?_, ?_, ?_⟩
  · show (lookupS p (dictModify sq0 p (fun d2 => dictModify d2 s (fun l => l ++ [q])))).isSome = true
    rw [lookupS_dictModify_self, hd]
    rfl
  · show (lookupS p (dictModify pm0 p (fun l => if m ∈ l then l else l ++ [m]))).isSome = true
    rw [lookupS_dictModify_self]
    rcases Option.isSome_iff_exists.mp hpm with ⟨l, hl⟩
    rw [hl]
    rfl
  · intro s2 d3 hs2 hd3
    replace hs2 : some s = some s2 := hs2
    cases hs2
    replace hd3 :
        lookupS p (dictModify sq0 p (fun d2 => dictModify d2 s (fun l => l ++ [q]))) =
          some d3 := hd3
    rw [lookupS_dictModify_self, hd] at hd3
    replace hd3 : some (dictModify d s (fun l => l ++ [q])) = some d3 := hd3
    cases hd3
    show (lookupS s (dictModify d s (fun l => l ++ [q]))).isSome = true
    rw [lookupS_dictModify_self]
    rcases Option.isSome_iff_exists.mp hsd with ⟨l, hl⟩
    rw [hl]
    rfl

theorem stepBody_ok (line : String) (rest : List String) (st : PState)
    (p : String) (d : SecDict) (s : String)
    (hcp : st.cp = some p) (hd : lookupS p st.sq = some d)
    (hpm : (lookupS p st.pm).isSome = true)
    (hc : st.cs = some s) (hsd : (lookupS s d).isSome = true) :
    ∃ st2 rest2, stepBody line rest st = Except.ok (st2, rest2) ∧ Ready st2 ∧
      rest2.length ≤ rest.length := by
  obtain ⟨sq0, cp0, cs0, smi0, pm0⟩ := st
  replace hcp : cp0 = some p := hcp
  replace hd : lookupS p sq0 = some d := hd
  replace hpm : (lookupS p pm0).isSome = true := hpm
  replace hc : cs0 = some s := hc
  subst hcp
  subst hc
  unfold stepBody
  by_cases hi : is_instruction_line line
  · rw [if_pos hi]
    refine ⟨_, rest, rfl, ⟨p, rfl, ?_, hpm, ?_⟩, Nat.le_refl _⟩
    · show (lookupS p sq0).isSome = true
      rw [hd]
      rfl
    · intro s2 d2 hs2 hd2
      replace hs2 : some s = some s2 := hs2
      cases hs2
      replace hd2 : lookupS p sq0 = some d2 := hd2
      rw [hd] at hd2
      cases hd2
      exact hsd
  · rw [if_neg hi]
    cases hq : q_match line with
    | none =>
      refine ⟨_, rest, rfl, ?_, Nat.le_refl _⟩
      rcases contAppend_ready sq0 p (some s) line d hd with ⟨d2, hd2, hiff⟩
      refine ⟨p, rfl, ?_, hpm, ?_⟩
      · show (lookupS p (contAppend sq0 (some p) (some s) line)).isSome = true
        rw [hd2]
        rfl
      · intro s2 d3 hs2 hd3
        replace hs2 : some s = some s2 := hs2
        cases hs2
        replace hd3 : lookupS p (contAppend sq0 (some p) (some s) line) = some d3 := hd3
        rw [hd2] at hd3
        cases hd3
        rw [hiff s]
        exact hsd
    | some qres =>
      simp only [pmAdd_some pm0 p hpm, sqAppend_some sq0 p s d hd hsd]
      exact ⟨_, _, rfl, Ready_append sq0 p s d smi0 pm0 _ _ hd hpm hsd,
        takeOptions_len rest⟩

theorem stepAfterSection_ok (line : String) (rest : List String) (st : PState)
    (p : String) (d : SecDict)
    (hcp : st.cp = some p) (hd : lookupS p st.sq = some d)
    (hpm : (lookupS p st.pm).isSome = true)
    (hcs : ∀ s2 d2, st.cs = some s2 → lookupS p st.sq = some d2 →
      (lookupS s2 d2).isSome = true) :
    ∃ st2 rest2, stepAfterSection line rest st = Except.ok (st2, rest2) ∧ Ready st2 ∧
      rest2.length ≤ rest.length := by
  obtain ⟨sq0, cp0, cs0, smi0, pm0⟩ := st
  replace hcp : cp0 = some p := hcp
  replace hd : lookupS p sq0 = some d := hd
  replace hpm : (lookupS p pm0).isSome = true := hpm
  replace hcs : ∀ s2 d2, cs0 = some s2 → lookupS p sq0 = some d2 →
      (lookupS s2 d2).isSome = true := hcs
  subst hcp
  cases cs0 with
  | some s =>
    have hsd : (lookupS s d).isSome = true := hcs s d rfl hd
    exact stepBody_ok line rest ⟨sq0, some p, some s, smi0, pm0⟩ p d s rfl hd hpm rfl hsd
  | none =>
    unfold stepAfterSection
    simp only [hd]
    by_cases hg : (lookupS "General" d).isSome = true
    · rw [if_pos hg]
      exact stepBody_ok line rest ⟨sq0, some p, some "General", smi0, pm0⟩ p d
        "General" rfl hd hpm rfl hg
    · rw [if_neg hg]
      have hd2 : lookupS p (dictModify sq0 p (fun dd => dictSet dd "General" [])) =
          some (dictSet d "General" []) := by
        rw [lookupS_dictModify_self, hd]
        rfl
      have hg2 : (lookupS "General" (dictSet d "General" [])).isSome = true := by
        rw [lookupS_dictSet_self]
        rfl
      exact stepBody_ok line rest
        ⟨dictModify sq0 p (fun dd => dictSet dd "General" []), some p,
         some "General", dictSet smi0 "General" "", pm0⟩ p
        (dictSet d "General" []) "General" rfl hd2 hpm rfl hg2

theorem step_ok (line : String) (rest : List String) (st : PState) (hre : Ready st) :
    ∃ st2 rest2, step line rest st = Except.ok (st2, rest2) ∧ Ready st2 ∧
      rest2.length ≤ rest.length := by
  rcases hre with ⟨p, hcp, hsq, hpm, hcs⟩
  rcases Option.isSome_iff_exists.mp hsq with ⟨d, hd⟩
  obtain ⟨sq0, cp0, cs0, smi0, pm0⟩ := st
  replace hcp : cp0 = some p := hcp
  replace hd : lookupS p sq0 = some d := hd
  replace hpm : (lookupS p pm0).isSome = true := hpm
  replace hcs : ∀ s2 d2, cs0 = some s2 → lookupS p sq0 = some d2 →
      (lookupS s2 d2).isSome = true := hcs
  subst hcp
  unfold step
  cases hpart : part_match line with
  | some g1 =>
    exact ⟨_, rest, rfl, Ready_part sq0 g1 smi0 pm0, Nat.le_refl _⟩
  | none =>
    have hlen : (match rest with
        | next :: rest2 =>
          if mulSearch next.data then (next, rest2) else ("", next :: rest2)
        | [] => (("" : String), ([] : List String))).2.length ≤ rest.length := by
      cases rest with
      | nil => exact Nat.le_refl _
      | cons next rest2 =>
        show (if mulSearch next.data then (next, rest2)
            else ("", next :: rest2)).2.length ≤ (next :: rest2).length
        by_cases hm : mulSearch next.data
        · rw [if_pos hm]
          exact Nat.le_succ _
        · rw [if_neg hm]
    cases hsec : section_match line with
    | some num =>
      simp only [sqSetSection_some sq0 p d hd]
      exact ⟨_, _, rfl, Ready_section sq0 p ("Section " ++ num) d _ pm0 hd hpm, hlen⟩
    | none =>
      rcases stepAfterSection_ok line
        ((match rest with
          | next :: rest2 =>
            if mulSearch next.data then (next, rest2) else ("", next :: rest2)
          | [] => (("" : String), ([] : List String))).2)
        ⟨sq0, some p, cs0, smi0, pm0⟩ p d rfl hd hpm hcs with
        ⟨st2, rest2, heq, hre2, hle⟩
      exact ⟨st2, rest2, heq, hre2, le_trans hle hlen⟩

theorem runLines_ok : ∀ (fuel : Nat) (lines : List String) (st : PState),
    Ready st → lines.length ≤ fuel →
    ∃ st2, runLines fuel lines st = Except.ok st2 ∧ Ready st2 := by
  intro fuel
  induction fuel with
  | zero =>
    intro lines st hre hlen
    cases lines with
    | nil => exact ⟨st, rfl, hre⟩
    | cons l ls => simp at hlen
  | succ fuel ih =>
    intro lines st hre hlen
    cases lines with
    | nil => exact ⟨st, rfl, hre⟩
    | cons line rest =>
      rcases step_ok line rest st hre with ⟨st2, rest2, hstep, hre2, hle⟩
      have hlen2 : rest2.length ≤ fuel := by
        simp only [List.length_cons] at hlen
        omega
      rcases ih rest2 st2 hre2 hlen2 with ⟨st3, hrun, hre3⟩
      refine ⟨st3, ?_, hre3⟩
      simp only [runLines, hstep]
      exact hrun

theorem runDocs_ok : ∀ (docs : List String) (st : PState), Ready st →
    ∃ st2, runDocs docs st = Except.ok st2 ∧ Ready st2 := by
  intro docs
  induction docs with
  | nil => intro st hre; exact ⟨st, rfl, hre⟩
  | cons doc docs ih =>
    intro st hre
    rcases runLines_ok (docLines doc).length (docLines doc) st hre (Nat.le_refl _) with
      ⟨st2, hrun, hre2⟩
    rcases ih st2 hre2 with ⟨st3, hdocs, hre3⟩
    refine ⟨st3, ?_, hre3⟩
    simp only [runDocs, hrun]
    exact hdocs

theorem sqAppend_none_left (sq : SQ) (p s : String) (h : lookupS p sq = none)
    (q : Q) : sqAppend sq p s q = none := by
  unfold sqAppend
  simp only [h]

theorem sqAppend_none_right (sq : SQ) (p s : String) (d : SecDict)
    (h1 : lookupS p sq = some d) (h2 : lookupS s d = none) (q : Q) :
    sqAppend sq p s q = none := by
  unfold sqAppend
  simp only [h1, h2]

theorem stepBody_marks (line : String) (rest : List String) (st st2 : PState)
    (rest2 : List String) (h : SQOk st.sq)
    (hs : stepBody line rest st = Except.ok (st2, rest2)) : SQOk st2.sq := by
  obtain ⟨sq0, cp0, cs0, smi0, pm0⟩ := st
  replace h : SQOk sq0 := h
  unfold stepBody at hs
  by_cases hi : is_instruction_line line
  · rw [if_pos hi] at hs
    simp only [Except.ok.injEq, Prod.mk.injEq] at hs
    rw [← hs.1]
    exact h
  · rw [if_neg hi] at hs
    cases hq : q_match line with
    | none =>
      simp only [hq, Except.ok.injEq, Prod.mk.injEq] at hs
      rw [← hs.1]
      exact SQOk_cont sq0 cp0 cs0 line h
    | some qres =>
      simp only [hq] at hs
      cases cp0 with
      | none => simp at hs
      | some p =>
        cases hpa : pmAdd pm0 p
            (estimate_marks ((Option.bind cs0 (fun s => lookupS s smi0)).getD "")) with
        | none =>
          simp only [hpa] at hs
          exact Except.noConfusion hs
        | some pm2 =>
          simp only [hpa] at hs
          cases cs0 with
          | none => simp at hs
          | some s =>
            cases hlp : lookupS p sq0 with
            | none =>
              simp only [sqAppend_none_left sq0 p s hlp] at hs
              exact Except.noConfusion hs
            | some d =>
              cases hls : lookupS s d with
              | none =>
                simp only [sqAppend_none_right sq0 p s d hlp hls] at hs
                exact Except.noConfusion hs
              | some l =>
                simp only [sqAppend_some sq0 p s d hlp (by rw [hls]; rfl),
                  Except.ok.injEq, Prod.mk.injEq] at hs
                rw [← hs.1]
                exact SQOk_append sq0 p s _ h ⟨_, rfl⟩

theorem stepAfterSection_marks (line : String) (rest : List String) (st st2 : PState)
    (rest2 : List String) (h : SQOk st.sq)
    (hs : stepAfterSection line rest st = Except.ok (st2, rest2)) : SQOk st2.sq := by
  unfold stepAfterSection at hs
  cases hcp : st.cp with
  | none =>
    simp only [hcp] at hs
    exact stepBody_marks line rest st st2 rest2 h hs
  | some p =>
    cases hcs : st.cs with
    | some s =>
      simp only [hcp, hcs] at hs
      exact stepBody_marks line rest st st2 rest2 h hs
    | none =>
      simp only [hcp, hcs] at hs
      cases hl : lookupS p st.sq with
      | none =>
        simp only [hl] at hs
        exact Except.noConfusion hs
      | some d =>
        simp only [hl] at hs
        by_cases hg : (lookupS "General" d).isSome = true
        · rw [if_pos hg] at hs
          refine stepBody_marks line rest _ st2 rest2 ?_ hs
          exact h
        · rw [if_neg hg] at hs
          refine stepBody_marks line rest _ st2 rest2 ?_ hs
          exact SQOk_setSection st.sq p _ h

theorem step_marks (line : String) (rest : List String) (st st2 : PState)
    (rest2 : List String) (h : SQOk st.sq)
    (hs : step line rest st = Except.ok (st2, rest2)) : SQOk st2.sq := by
  unfold step at hs
  cases hpart : part_match line with
  | some g1 =>
    simp only [hpart, Except.ok.injEq, Prod.mk.injEq] at hs
    rw [← hs.1]
    exact SQOk_dictSet_empty st.sq _ h
  | none =>
    simp only [hpart] at hs
    cases hsec : section_match line with
    | some num =>
      simp only [hsec] at hs
      cases hcp : st.cp with
      | none =>
        simp only [hcp, Except.ok.injEq, Prod.mk.injEq] at hs
        rw [← hs.1]
        exact h
      | some p =>
        simp only [hcp] at hs
        cases hss : sqSetSection st.sq p ("Section " ++ num) with
        | none =>
          simp only [hss] at hs
          exact Except.noConfusion hs
        | some sq2 =>
          simp only [hss, Except.ok.injEq, Prod.mk.injEq] at hs
          rw [← hs.1]
          show SQOk sq2
          unfold sqSetSection at hss
          cases hl : lookupS p st.sq with
          | none =>
            simp only [hl] at hss
            exact Option.noConfusion hss
          | some dd =>
            simp only [hl, Option.some.injEq] at hss
            rw [← hss]
            exact SQOk_setSection st.sq p _ h
    | none =>
      simp only [hsec] at hs
      exact stepAfterSection_marks line _ st st2 rest2 h hs

theorem runLines_marks : ∀ (fuel : Nat) (lines : List String) (st st2 : PState),
    SQOk st.sq → runLines fuel lines st = Except.ok st2 → SQOk st2.sq := by
  intro fuel
  induction fuel with
  | zero =>
    intro lines st st2 h hr
    cases lines with
    | nil =>
      replace hr : Except.ok st = Except.ok st2 := hr
      cases hr
      exact h
    | cons l ls =>
      replace hr : (Except.error "Fuel" : Except String PState) = Except.ok st2 := hr
      exact Except.noConfusion hr
  | succ fuel ih =>
    intro lines st st2 h hr
    cases lines with
    | nil =>
      replace hr : Except.ok st = Except.ok st2 := hr
      cases hr
      exact h
    | cons line rest =>
      cases hstep : step line rest st with
      | error e =>
        simp only [runLines, hstep] at hr
        exact Except.noConfusion hr
      | ok r =>
        simp only [runLines, hstep] at hr
        exact ih r.2 r.1 st2 (step_marks line rest st r.1 r.2 h (by rw [hstep])) hr

theorem runDocs_marks : ∀ (docs : List String) (st st2 : PState),
    SQOk st.sq → runDocs docs st = Except.ok st2 → SQOk st2.sq := by
  intro docs
  induction docs with
  | nil =>
    intro st st2 h hr
    replace hr : Except.ok st = Except.ok st2 := hr
    cases hr
    exact h
  | cons doc docs ih =>
    intro st st2 h hr
    cases hrun : runLines (docLines doc).length (docLines doc) st with
    | error e =>
      simp only [runDocs, hrun] at hr
      exact Except.noConfusion hr
    | ok stm =>
      simp only [runDocs, hrun] at hr
      exact ih stm st2 (runLines_marks _ _ st stm h hrun) hr

theorem categorize_go (sq : SQ) (pm : List (String × List Nat)) :
    ∀ (acc : SQ) (pe : String × SecDict),
    pe ∈ sq.foldl
        (fun acc pe2 => dictSet acc (partName pe2.1 ((lookupS pe2.1 pm).getD [])) pe2.2)
        acc →
    pe ∈ acc ∨ ∃ pe0 ∈ sq, pe.2 = pe0.2 := by
  induction sq with
  | nil => intro acc pe h; exact Or.inl h
  | cons e rest ih =>
    intro acc pe h
    rw [List.foldl_cons] at h
    rcases ih _ pe h with h1 | h1
    · rcases mem_dictSet h1 with h2 | h2
      · exact Or.inl h2
      · exact Or.inr ⟨e, List.mem_cons_self _ _, by rw [h2]⟩
    · rcases h1 with ⟨pe0, hpe0, hq⟩
      exact Or.inr ⟨pe0, List.mem_cons_of_mem _ hpe0, hq⟩

theorem mem_categorize {sq : SQ} {pm : List (String × List Nat)}
    {pe : String × SecDict} (h : pe ∈ categorize sq pm) :
    ∃ pe0 ∈ sq, pe.2 = pe0.2 := by
  rcases categorize_go sq pm [] pe h with h1 | h1
  · cases h1
  · exact h1

theorem estimate_marks_zero (s : String) :
    1 ≤ estimate_marks s ∨
      (estimate_marks s = 0 ∧ ∃ c, findMul s.data = some (c, 0)) := by
  cases hf : findMul s.data with
  | some r =>
    rcases r with ⟨c, v⟩
    cases v with
    | zero =>
      right
      refine ⟨?_, ⟨c, rfl⟩⟩
      simp [estimate_marks, hf]
    | succ v2 =>
      left
      simp only [estimate_marks, hf]
      exact Nat.succ_le_succ (Nat.zero_le v2)
  | none =>
    cases hfind : List.find?
        (fun m =>
          containsL ((toString m ++ " mark").data) (lowerStr s).data ||
          containsL ((toString m ++ " marks").data) (lowerStr s).data)
        [1, 2, 3, 4, 5, 6, 8, 10] with
    | some m =>
      left
      have h1 : estimate_marks s = m := by
        simp only [estimate_marks, hf, hfind]
      have h2 := List.mem_of_find?_eq_some hfind
      rw [h1]
      simp only [List.mem_cons, List.not_mem_nil, or_false] at h2
      rcases h2 with rfl | rfl | rfl | rfl | rfl | rfl | rfl | rfl <;> decide
    | none =>
      left
      simp only [estimate_marks, hf, hfind]
      exact Nat.le_refl 1

/-! ## Claim C4 (mark estimation) -/

/-- Claim C4 counterexample: the hint "7 marks" names the explicit value 7,
but `estimate_marks` only recognises the values 1,2,3,4,5,6,8,10 and falls
back to the default 1, not 7 as the claim requires. -/
theorem c4_counterexample : estimate_marks ("7 marks") = 1 ∧ (1 : Nat) ≠ 7 :=
  ⟨rfl, by decide⟩

/-- Claim C4 (amended): mark estimation returns the per-item value of a
"count x marks" multiplier pattern when one occurs; otherwise the first
value m from the fixed list [1,2,3,4,5,6,8,10] (not an arbitrary positive
integer) whose "m mark"/"m marks" phrase occurs as a substring of the
lowered hint; otherwise the default 1. -/
theorem c4_thm :
    (∀ s : String, ∀ c v : Nat, findMul s.data = some (c, v) → estimate_marks s = v) ∧
    (∀ s : String, ∀ m : Nat, findMul s.data = none →
      List.find?
        (fun m =>
          containsL ((toString m ++ " mark").data) (lowerStr s).data ||
          containsL ((toString m ++ " marks").data) (lowerStr s).data)
        [1, 2, 3, 4, 5, 6, 8, 10] = some m →
      estimate_marks s = m) ∧
    (∀ s : String, findMul s.data = none →
      List.find?
        (fun m =>
          containsL ((toString m ++ " mark").data) (lowerStr s).data ||
          containsL ((toString m ++ " marks").data) (lowerStr s).data)
        [1, 2, 3, 4, 5, 6, 8, 10] = none →
      estimate_marks s = 1) := by
  refine ⟨?_, ?_, ?_⟩
  · intro s c v h
    simp only [estimate_marks, h]
  · intro s m h h2
    simp only [estimate_marks, h, h2]
  · intro s h h2
    simp only [estimate_marks, h, h2]

/-- Witness for C4 at the concrete hint "5 x 2": the multiplier pattern is
found and the per-item value 2 is returned. -/
theorem c4_witness :
    findMul (("5 x 2" : String).data) = some (5, 2) ∧ estimate_marks ("5 x 2") = 2 :=
  ⟨rfl, c4_thm.1 ("5 x 2") 5 2 rfl⟩

/-! ## Claim C3 (part categorisation) -/

/-- Claim C3 counterexample: a part whose only observed mark value is 1 is
labelled "Descriptive Answers" by the code, not "Short Answer" as the claim
says (the code reserves "Short Answer" for the single value 2). -/
theorem c3_counterexample :
    parse_question_structure ["PART A\n1. Q?"] =
      Except.ok [("Part A - Descriptive Answers",
        [("General", [{ number := "1", question := "Q?", marks := 1, is_mcq := false }])])] ∧
    ("Part A - Descriptive Answers" : String) ≠ "Part A - Short Answer" :=
  ⟨rfl, by decide⟩

/-- Claim C3 (amended): in the post-pass, a part with a single distinct mark
value v is suffixed " - Short Answer" exactly when v = 2 and
" - Descriptive Answers" for every other single value (including 1); two or
more distinct values produce the "Questions (min-max Marks)" range suffix. -/
theorem c3_thm :
    (∀ part : String, ∀ v : Nat, partName part [v] =
      part ++ (if v = 2 then " - Short Answer" else " - Descriptive Answers")) ∧
    (∀ part : String, ∀ marks : List Nat, 2 ≤ marks.length →
      partName part marks = part ++ " - Questions (" ++ toString (setMin marks) ++
        "-" ++ toString (setMax marks) ++ " Marks)") := by
  constructor
  · intro part v
    by_cases h2 : v = 2
    · simp [partName, h2]
    · simp only [partName, h2, if_false]
      split_ifs <;> rfl
  · intro part marks h
    match marks with
    | [] => exact absurd h (by simp)
    | [a] => exact absurd h (by simp)
    | a :: b :: t => rfl

/-- Witness for C3 at the concrete parts with marks {2} and {2, 5}. -/
theorem c3_witness :
    partName ("Part A") [2] = "Part A - Short Answer" ∧
    partName ("Part A") [2, 5] = "Part A - Questions (2-5 Marks)" := by
  constructor
  · exact (c3_thm.1 ("Part A") 2).trans (by decide)
  · exact (c3_thm.2 ("Part A") [2, 5] (by decide)).trans (by decide)

/-! ## Claim C8 (ingestor) -/

/-- Claim C8 counterexample: the emitted unit's content is not the raw
extracted text of the page — the code prefixes it with a "[Page i]" tag
line. -/
theorem c8_counterexample :
    extract_text_data ["hello"] =
      ([{ page_content := "[Page 1]\nhello", page := 1 }], []) ∧
    ("[Page 1]\nhello" : String) ≠ "hello" :=
  ⟨rfl, by decide⟩

theorem extractAux_spec (ts : List String) : ∀ (i : Nat),
    ∀ d ∈ extractAux i ts, ∃ j, j < ts.length ∧ d.page = i + j ∧
      ∃ t, ts.get? j = some t ∧ pyStrip t ≠ "" ∧
        d.page_content = "[Page " ++ toString (i + j) ++ "]\n" ++ t := by
  induction ts with
  | nil => intro i d h; cases h
  | cons t ts ih =>
    intro i d h
    by_cases ht : pyStrip t ≠ ""
    · rw [extractAux, if_pos ht] at h
      rcases List.mem_cons.mp h with h1 | h1
      · refine ⟨0, by simp, by simp [h1], t, by simp, ht, by simp [h1]⟩
      · rcases ih (i + 1) d h1 with ⟨j, hj, hp, u, hu, hu2, hu3⟩
        refine ⟨j + 1, by simpa using Nat.succ_lt_succ hj, by rw [hp]; omega,
          u, by simpa using hu, hu2, ?_⟩
        rw [hu3]
        have hij : i + 1 + j = i + (j + 1) := by omega
        rw [hij]
    · rw [extractAux, if_neg ht] at h
      rcases ih (i + 1) d h with ⟨j, hj, hp, u, hu, hu2, hu3⟩
      refine ⟨j + 1, by simpa using Nat.succ_lt_succ hj, by rw [hp]; omega,
        u, by simpa using hu, hu2, ?_⟩
      rw [hu3]
      have hij : i + 1 + j = i + (j + 1) := by omega
      rw [hij]

theorem extractAux_lb (ts : List String) : ∀ (i : Nat),
    ∀ d ∈ extractAux i ts, i ≤ d.page := by
  induction ts with
  | nil => intro i d h; cases h
  | cons t ts ih =>
    intro i d h
    by_cases ht : pyStrip t ≠ ""
    · rw [extractAux, if_pos ht] at h
      rcases List.mem_cons.mp h with h1 | h1
      · simp [h1]
      · exact Nat.le_of_succ_le (ih (i + 1) d h1)
    · rw [extractAux, if_neg ht] at h
      exact Nat.le_of_succ_le (ih (i + 1) d h)

theorem extractAux_pairwise (ts : List String) : ∀ (i : Nat),
    List.Pairwise (fun a b => a < b) ((extractAux i ts).map (fun d => d.page)) := by
  induction ts with
  | nil => intro i; simp [extractAux]
  | cons t ts ih =>
    intro i
    by_cases ht : pyStrip t ≠ ""
    · rw [extractAux, if_pos ht]
      rw [List.map_cons, List.pairwise_cons]
      refine ⟨?_, ih (i + 1)⟩
      intro b hb
      rcases List.mem_map.mp hb with ⟨d, hd, hdb⟩
      have h2 := extractAux_lb ts (i + 1) d hd
      have hdb2 : d.page = b := hdb
      show i < b
      omega
    · rw [extractAux, if_neg ht]
      exact ih (i + 1)

theorem extractAux_length (ts : List String) : ∀ (i : Nat),
    (extractAux i ts).length = (ts.filter (fun t => pyStrip t ≠ "")).length := by
  induction ts with
  | nil => intro i; simp [extractAux]
  | cons t ts ih =>
    intro i
    by_cases ht : pyStrip t ≠ ""
    · rw [extractAux, if_pos ht]
      simp [List.filter_cons, ht, ih (i + 1)]
    · rw [extractAux, if_neg ht]
      simp [List.filter_cons, ht, ih (i + 1)]

/-- Claim C8 (amended): the ingestor emits units in page order with
1-based, strictly increasing page numbers, exactly one unit per page with
non-blank extracted text, and each unit's content is the raw extracted text
of its page prefixed by a "[Page i]" tag line (not the raw text alone). -/
theorem c8_thm (pages : List String) :
    (∀ d ∈ (extract_text_data pages).1,
      1 ≤ d.page ∧ ∃ t, pages.get? (d.page - 1) = some t ∧ pyStrip t ≠ "" ∧
        d.page_content = "[Page " ++ toString d.page ++ "]\n" ++ t) ∧
    List.Pairwise (fun a b => a < b) (((extract_text_data pages).1).map (fun d => d.page)) ∧
    ((extract_text_data pages).1).length =
      (pages.filter (fun t => pyStrip t ≠ "")).length := by
  refine ⟨?_, extractAux_pairwise pages 1, extractAux_length pages 1⟩
  intro d hd
  rcases extractAux_spec pages 1 d hd with ⟨j, hj, hp, t, ht, ht2, ht3⟩
  refine ⟨by omega, t, ?_, ht2, by rw [ht3, hp]⟩
  have : d.page - 1 = j := by omega
  rw [this, ht]

/-- Witness for C8 at the concrete input ["", "hi"]: the blank first page
is skipped, the unit for page 2 carries the tagged text. -/
theorem c8_witness :
    ({ page_content := "[Page 2]\nhi", page := 2 } : PDoc) ∈
      (extract_text_data ["", "hi"]).1 ∧
    (1 ≤ 2 ∧ ∃ t, (["", "hi"] : List String).get? (2 - 1) = some t ∧ pyStrip t ≠ "" ∧
      ("[Page 2]\nhi" : String) = "[Page " ++ toString 2 ++ "]\n" ++ t) := by
  have hm : ({ page_content := "[Page 2]\nhi", page := 2 } : PDoc) ∈
      (extract_text_data ["", "hi"]).1 := by decide
  exact ⟨hm, (c8_thm ["", "hi"]).1 _ hm⟩

/-! ## Claims C5 and C7 (index cache) -/

theorem get_faiss_paths_ne (fh : String) :
    (get_faiss_paths fh).1 ≠ (get_faiss_paths fh).2 := by
  intro h
  have h2 := congrArg String.length h
  simp only [get_faiss_paths, String.length_append] at h2
  have e1 : String.length (".faiss") = 6 := rfl
  have e2 : String.length (".pkl") = 4 := rfl
  rw [e1, e2] at h2
  omega

/-- Claim C5: the cache hit/miss behaviour of `load_or_build_faiss`.  When
both persisted artifacts exist, the stored index is deserialized and
returned, the store is unchanged, and no extraction / splitting / embedding
operation is performed.  When either artifact is absent (and the external
services succeed), the full build runs and both artifacts are persisted
under the fingerprint paths. -/
theorem c5_thm (env : BuildEnv) (splitter : List PDoc → List PDoc)
    (model : String) (fs : List (String × Blob)) (pages : List String)
    (fh : String) :
    (∀ cs e1 e2, lookupS (get_faiss_paths fh).1 fs = some (Blob.faiss cs e1) →
      lookupS (get_faiss_paths fh).2 fs = some (Blob.pkl e2) →
      load_or_build_faiss env splitter model fs pages fh =
        (Except.ok { chunks := cs, emb := e2 }, fs, [Op.loadPkl, Op.loadIndex]) ∧
      Op.extract ∉ [Op.loadPkl, Op.loadIndex] ∧
      Op.split ∉ [Op.loadPkl, Op.loadIndex] ∧
      Op.embed ∉ [Op.loadPkl, Op.loadIndex]) ∧
    (¬ ((lookupS (get_faiss_paths fh).1 fs).isSome = true ∧
        (lookupS (get_faiss_paths fh).2 fs).isSome = true) →
      env.embedOk = true → env.dumpOk = true →
      ∃ vdb fs2,
        load_or_build_faiss env splitter model fs pages fh =
          (Except.ok vdb, fs2,
           [Op.extract, Op.split, Op.embed, Op.saveIndex, Op.savePkl]) ∧
        lookupS (get_faiss_paths fh).1 fs2 = some (Blob.faiss vdb.chunks vdb.emb) ∧
        lookupS (get_faiss_paths fh).2 fs2 = some (Blob.pkl model)) := by
  constructor
  · intro cs e1 e2 h1 h2
    refine ⟨?_, by decide, by decide, by decide⟩
    simp [load_or_build_faiss, h1, h2, pickleLoadB, faissLoadLocal]
  · intro hmiss he hd
    have hcond : ((lookupS (get_faiss_paths fh).1 fs).isSome &&
        (lookupS (get_faiss_paths fh).2 fs).isSome) = false := by
      cases h1 : (lookupS (get_faiss_paths fh).1 fs).isSome with
      | false => simp [h1]
      | true =>
        cases h2 : (lookupS (get_faiss_paths fh).2 fs).isSome with
        | false => simp [h2]
        | true => exact absurd ⟨h1, h2⟩ hmiss
    refine ⟨{ chunks := splitter (extract_text_data pages).1, emb := model },
      dictSet (dictSet fs (get_faiss_paths fh).1
        (Blob.faiss (splitter (extract_text_data pages).1) model))
        (get_faiss_paths fh).2 (Blob.pkl model), ?_, ?_, ?_⟩
    · simp [load_or_build_faiss, hcond, he, hd]
    · rw [lookupS_dictSet_ne _ _ _ _ (Ne.symm (get_faiss_paths_ne fh)),
        lookupS_dictSet_self]
    · rw [lookupS_dictSet_self]

/-- Witness for C5: a concrete cache hit and a concrete cache miss. -/
theorem c5_witness :
    load_or_build_faiss { embedOk := true, dumpOk := true } (fun ds => ds) ("m")
        [("faiss_indexes/h.faiss", Blob.faiss [] "m"),
         ("faiss_indexes/h.pkl", Blob.pkl "m")] [] ("h") =
      (Except.ok { chunks := [], emb := "m" },
       [("faiss_indexes/h.faiss", Blob.faiss [] "m"),
        ("faiss_indexes/h.pkl", Blob.pkl "m")], [Op.loadPkl, Op.loadIndex]) ∧
    (∃ vdb fs2,
      load_or_build_faiss { embedOk := true, dumpOk := true } (fun ds => ds) ("m")
          [] [] ("h") =
        (Except.ok vdb, fs2,
         [Op.extract, Op.split, Op.embed, Op.saveIndex, Op.savePkl]) ∧
      lookupS (get_faiss_paths ("h")).1 fs2 = some (Blob.faiss vdb.chunks vdb.emb) ∧
      lookupS (get_faiss_paths ("h")).2 fs2 = some (Blob.pkl ("m"))) := by
  constructor
  · exact ((c5_thm { embedOk := true, dumpOk := true } (fun ds => ds) ("m")
      [("faiss_indexes/h.faiss", Blob.faiss [] "m"),
       ("faiss_indexes/h.pkl", Blob.pkl "m")] [] ("h")).1 [] "m" "m" rfl rfl).1
  · exact (c5_thm { embedOk := true, dumpOk := true } (fun ds => ds) ("m")
      [] [] ("h")).2 (by decide) rfl rfl

/-- Claim C7 counterexample: with an empty store, a failure of the
embedding-configuration write (after the index write) leaves the store
changed — it now holds the index artifact but not the configuration
artifact, a partial cache entry, refuting the claimed atomic publish. -/
theorem c7_counterexample :
    load_or_build_faiss { embedOk := true, dumpOk := false } (fun ds => ds) ("m")
        [] [] ("h") =
      (Except.error "PickleDumpError",
       [("faiss_indexes/h.faiss", Blob.faiss [] "m")],
       [Op.extract, Op.split, Op.embed, Op.saveIndex, Op.savePkl]) ∧
    ([("faiss_indexes/h.faiss", Blob.faiss [] "m")] : List (String × Blob)) ≠ [] ∧
    lookupS ("faiss_indexes/h.pkl")
      [("faiss_indexes/h.faiss", Blob.faiss [] "m")] = none :=
  ⟨rfl, by decide, rfl⟩

/-- Claim C7 (amended): there is no temporary-location/rename commit — the
build writes the two artifacts directly, index first.  If the embedding
service is unreachable the build fails before any write and the store is
unchanged; but a failure of the second write leaves exactly the index
artifact behind (a partial entry, though one that does not satisfy the
both-files cache-hit test). -/
theorem c7_thm (splitter : List PDoc → List PDoc) (model : String)
    (fs : List (String × Blob)) (pages : List String) (fh : String)
    (env : BuildEnv)
    (hmiss : ¬ ((lookupS (get_faiss_paths fh).1 fs).isSome = true ∧
        (lookupS (get_faiss_paths fh).2 fs).isSome = true)) :
    (env.embedOk = false →
      load_or_build_faiss env splitter model fs pages fh =
        (Except.error "EmbeddingServiceError", fs, [Op.extract, Op.split, Op.embed])) ∧
    (env.embedOk = true → env.dumpOk = false →
      load_or_build_faiss env splitter model fs pages fh =
        (Except.error "PickleDumpError",
         dictSet fs (get_faiss_paths fh).1
           (Blob.faiss (splitter (extract_text_data pages).1) model),
         [Op.extract, Op.split, Op.embed, Op.saveIndex, Op.savePkl]) ∧
      (lookupS (get_faiss_paths fh).1
        (dictSet fs (get_faiss_paths fh).1
          (Blob.faiss (splitter (extract_text_data pages).1) model))).isSome = true ∧
      lookupS (get_faiss_paths fh).2
        (dictSet fs (get_faiss_paths fh).1
          (Blob.faiss (splitter (extract_text_data pages).1) model)) =
        lookupS (get_faiss_paths fh).2 fs) := by
  have hcond : ((lookupS (get_faiss_paths fh).1 fs).isSome &&
      (lookupS (get_faiss_paths fh).2 fs).isSome) = false := by
    cases h1 : (lookupS (get_faiss_paths fh).1 fs).isSome with
    | false => simp [h1]
    | true =>
      cases h2 : (lookupS (get_faiss_paths fh).2 fs).isSome with
      | false => simp [h2]
      | true => exact absurd ⟨h1, h2⟩ hmiss
  constructor
  · intro he
    simp [load_or_build_faiss, hcond, he]
  · intro he hd
    refine ⟨by simp [load_or_build_faiss, hcond, he, hd], ?_, ?_⟩
    · rw [lookupS_dictSet_self]; rfl
    · exact lookupS_dictSet_ne _ _ _ _ (get_faiss_paths_ne fh)

/-- Witness for C7: the embedding-failure clause at a concrete store. -/
theorem c7_witness :
    load_or_build_faiss { embedOk := false, dumpOk := true } (fun ds => ds) ("m")
        [] [] ("h") =
      (Except.error "EmbeddingServiceError", [], [Op.extract, Op.split, Op.embed]) :=
  (c7_thm (fun ds => ds) ("m") [] [] ("h")
    { embedOk := false, dumpOk := true } (by decide)).1 rfl

/-! ## Claims C6 and C10 (answer generation) -/

theorem dictSet_absent {α : Type} (d : List (String × α)) (k : String) (v : α)
    (h : k ∉ d.map Prod.fst) : dictSet d k v = d ++ [(k, v)] := by
  induction d with
  | nil => rfl
  | cons e rest ih =>
    simp only [List.map_cons, List.mem_cons] at h
    push_neg at h
    simp only [dictSet]
    rw [if_neg (fun he => h.1 he.symm), List.cons_append, ih h.2]

theorem dictModify_append_absent {α : Type} (d : List (String × α)) (k : String)
    (v : α) (f : α → α) (h : k ∉ d.map Prod.fst) :
    dictModify (d ++ [(k, v)]) k f = d ++ [(k, f v)] := by
  induction d with
  | nil => simp [dictModify]
  | cons e rest ih =>
    simp only [List.map_cons, List.mem_cons] at h
    push_neg at h
    simp only [List.cons_append, dictModify]
    rw [if_neg (fun he => h.1 he.symm)]
    exact congrArg (fun t => e :: t) (ih h.2)

theorem foldQ (chain : ChainInput → Except String ChainOutput) (k : String)
    (qs : List Q) : ∀ (acc : List (String × List ARec)) (l : List ARec),
    k ∉ acc.map Prod.fst →
    qs.foldl (fun a q => dictModify a k (fun x => x ++ [answerOne chain q]))
        (acc ++ [(k, l)]) =
      acc ++ [(k, l ++ qs.map (answerOne chain))] := by
  induction qs with
  | nil => intro acc l _; simp
  | cons q qs ih =>
    intro acc l h
    rw [List.foldl_cons, dictModify_append_absent acc k l _ h,
      ih acc (l ++ [answerOne chain q]) h]
    simp

theorem processSections_go (chain : ChainInput → Except String ChainOutput)
    (sections : SecDict) : ∀ (acc : List (String × List ARec)),
    (sections.map Prod.fst).Nodup → (∀ se ∈ sections, se.1 ∉ acc.map Prod.fst) →
    sections.foldl
        (fun acc se =>
          se.2.foldl (fun acc2 q => dictModify acc2 se.1 (fun l => l ++ [answerOne chain q]))
            (dictSet acc se.1 []))
        acc =
      acc ++ sections.map (fun se => (se.1, se.2.map (answerOne chain))) := by
  induction sections with
  | nil => intro acc _ _; simp
  | cons se rest ih =>
    intro acc hnd hab
    have h1 : se.1 ∉ acc.map Prod.fst := hab se (List.mem_cons_self _ _)
    rw [List.foldl_cons, dictSet_absent acc se.1 [] h1, foldQ chain se.1 se.2 acc [] h1,
      List.nil_append,
      ih (acc ++ [(se.1, se.2.map (answerOne chain))]) ?_ ?_]
    · simp
    · rw [List.map_cons, List.nodup_cons] at hnd
      exact hnd.2
    · intro se2 hse2 hmem
      rw [List.map_append, List.mem_append] at hmem
      rcases hmem with hm | hm
      · exact hab se2 (List.mem_cons_of_mem _ hse2) hm
      · have h2 : se2.1 = se.1 := by simpa using hm
        rw [List.map_cons, List.nodup_cons] at hnd
        exact hnd.1 (h2 ▸ List.mem_map.mpr ⟨se2, hse2, rfl⟩)

theorem processSections_eq (chain : ChainInput → Except String ChainOutput)
    (sections : SecDict) (h : (sections.map Prod.fst).Nodup) :
    processSections chain sections =
      sections.map (fun se => (se.1, se.2.map (answerOne chain))) := by
  have h2 := processSections_go chain sections [] h (by intro se _ hm; cases hm)
  simpa [processSections] using h2

theorem generate_answers_go (chain : ChainInput → Except String ChainOutput)
    (tree : SQ) : ∀ (acc : ATree),
    (tree.map Prod.fst).Nodup → (∀ pe ∈ tree, pe.1 ∉ acc.map Prod.fst) →
    tree.foldl (fun acc pe => dictSet acc pe.1 (processSections chain pe.2)) acc =
      acc ++ tree.map (fun pe => (pe.1, processSections chain pe.2)) := by
  induction tree with
  | nil => intro acc _ _; simp
  | cons pe rest ih =>
    intro acc hnd hab
    have h1 : pe.1 ∉ acc.map Prod.fst := hab pe (List.mem_cons_self _ _)
    rw [List.foldl_cons, dictSet_absent acc pe.1 _ h1,
      ih (acc ++ [(pe.1, processSections chain pe.2)]) ?_ ?_]
    · simp
    · rw [List.map_cons, List.nodup_cons] at hnd
      exact hnd.2
    · intro pe2 hpe2 hmem
      rw [List.map_append, List.mem_append] at hmem
      rcases hmem with hm | hm
      · exact hab pe2 (List.mem_cons_of_mem _ hpe2) hm
      · have h2 : pe2.1 = pe.1 := by simpa using hm
        rw [List.map_cons, List.nodup_cons] at hnd
        exact hnd.1 (h2 ▸ List.mem_map.mpr ⟨pe2, hpe2, rfl⟩)

theorem map_fst_map_pair {α β : Type} (l : List (String × α)) (g : String × α → β) :
    (l.map (fun e => (e.1, g e))).map Prod.fst = l.map Prod.fst := by
  induction l with
  | nil => rfl
  | cons e rest ih => simp [ih]

/-- `generate_answers` is exactly the structure-preserving map of
`answerOne` over the input tree (for well-formed trees, whose part and
section keys are duplicate-free, as Python dictionaries guarantee). -/
theorem generate_answers_eq (chain : ChainInput → Except String ChainOutput)
    (tree : SQ) (hp : (tree.map Prod.fst).Nodup)
    (hs : ∀ pe ∈ tree, (pe.2.map Prod.fst).Nodup) :
    generate_answers tree chain =
      tree.map (fun pe => (pe.1, pe.2.map (fun se => (se.1, se.2.map (answerOne chain))))) := by
  have h := generate_answers_go chain tree [] hp (by intro pe _ hm; cases hm)
  unfold generate_answers
  rw [h, List.nil_append]
  apply List.map_congr_left
  intro pe hpe
  rw [processSections_eq chain pe.2 (hs pe hpe)]

/-- Claim C10: `generate_answers` preserves the question-tree structure —
same part keys and section keys in the same order, one answer record per
input question in the same order — and each record keeps the question's
number, text and marks unchanged, in the success and the failure branch of
`answerOne` alike. -/
theorem c10_thm (chain : ChainInput → Except String ChainOutput) (tree : SQ)
    (hp : (tree.map Prod.fst).Nodup)
    (hs : ∀ pe ∈ tree, (pe.2.map Prod.fst).Nodup) :
    generate_answers tree chain =
      tree.map (fun pe => (pe.1, pe.2.map (fun se => (se.1, se.2.map (answerOne chain))))) ∧
    ∀ q : Q, (answerOne chain q).number = q.number ∧
      (answerOne chain q).question = q.question ∧
      (answerOne chain q).marks = q.marks := by
  refine ⟨generate_answers_eq chain tree hp hs, ?_⟩
  intro q
  unfold answerOne
  cases chain (chainInput q) <;> exact ⟨rfl, rfl, rfl⟩

/-- Witness for C10 at a one-question tree and an always-succeeding chain. -/
theorem c10_witness :
    generate_answers [("Part A", [("Section 1",
        [{ number := "1", question := "Q", marks := 1, is_mcq := false }])])]
      (fun _ => Except.ok { result := "ans", source_documents := [] }) =
      [("Part A", [("Section 1",
        [{ number := "1", question := "Q", answer := "ans", sources := [],
           marks := 1 }])])] := by
  have h := (c10_thm (fun _ => Except.ok { result := "ans", source_documents := [] })
    [("Part A", [("Section 1",
      [{ number := "1", question := "Q", marks := 1, is_mcq := false }])])]
    (by decide) (by decide)).1
  exact h.trans rfl

/-- Claim C6: a generation failure on one question produces, for exactly
that question, a record whose answer is the in-band error marker and whose
sources list is empty; it raises nothing and neither omits nor alters the
records of the other questions — each section's output holds exactly one
record per input question, each computed independently by `answerOne`. -/
theorem c6_thm (chain : ChainInput → Except String ChainOutput) (tree : SQ)
    (hp : (tree.map Prod.fst).Nodup)
    (hs : ∀ pe ∈ tree, (pe.2.map Prod.fst).Nodup) :
    ∀ pe ∈ tree, ∃ osecs,
      lookupS pe.1 (generate_answers tree chain) = some osecs ∧
      (∀ se ∈ pe.2, lookupS se.1 osecs = some (se.2.map (answerOne chain)) ∧
        (se.2.map (answerOne chain)).length = se.2.length) ∧
      (∀ q : Q, ∀ e : String, chain (chainInput q) = Except.error e →
        answerOne chain q =
          { number := q.number, question := q.question,
            answer := "❌ Error generating answer: " ++ e, sources := [],
            marks := q.marks }) := by
  intro pe hpe
  refine ⟨pe.2.map (fun se => (se.1, se.2.map (answerOne chain))), ?_, ?_, ?_⟩
  · rw [generate_answers_eq chain tree hp hs]
    apply lookupS_of_mem_nodup
    · rw [map_fst_map_pair]
      exact hp
    · exact List.mem_map.mpr ⟨pe, hpe, rfl⟩
  · intro se hse
    refine ⟨?_, by simp⟩
    apply lookupS_of_mem_nodup
    · rw [map_fst_map_pair]
      exact hs pe hpe
    · exact List.mem_map.mpr ⟨se, hse, rfl⟩
  · intro q e h
    unfold answerOne
    rw [h]

/-! ## Claim C1 (the spec's concrete parser example) -/

/-- Claim C1 counterexample: on the four-line input the parser yields mark
value 1 (not 2) for both questions, because the marks hint "(5 x 2 marks)"
on the SECTION line itself is never captured (only a multiplier on the
following line is), and it yields is_multiple_choice = false for question 2,
because inline "(a) foo (b) bar" options on the question line are not
detected (only option lines following the question line are). -/
theorem c1_counterexample :
    parse_question_structure
        ["PART A\nSECTION 1 (5 x 2 marks)\n1. What is X?\n2. What is Y? (a) foo (b) bar"] =
      Except.ok [("Part A - Descriptive Answers",
        [("Section 1",
          [{ number := "1", question := "What is X?", marks := 1, is_mcq := false },
           { number := "2", question := "What is Y? (a) foo (b) bar", marks := 1,
             is_mcq := false }])])] ∧
    (1 : Nat) ≠ 2 ∧ (false ≠ true) :=
  ⟨rfl, by decide, by decide⟩

/-- Claim C1 (amended): on that input the parser produces exactly one part
(labelled "Part A - Descriptive Answers" after the post-pass) with exactly
one section "Section 1" holding two questions: number "1", mark 1, not
multiple choice; and number "2", mark 1, not multiple choice, with the
option text left inline in the question text. -/
theorem c1_thm :
    parse_question_structure
        ["PART A\nSECTION 1 (5 x 2 marks)\n1. What is X?\n2. What is Y? (a) foo (b) bar"] =
      Except.ok [("Part A - Descriptive Answers",
        [("Section 1",
          [{ number := "1", question := "What is X?", marks := 1, is_mcq := false },
           { number := "2", question := "What is Y? (a) foo (b) bar", marks := 1,
             is_mcq := false }])])] :=
  rfl

/-! ## Claim C2 (totality of the parser) -/

/-- Claim C2 counterexample: a document holding a recognizable question line
but no PART header makes `parse_question_structure` raise KeyError
(`structured_questions[None]` in the source); no implicit part/section pair
is created. -/
theorem c2_counterexample :
    parse_question_structure ["1. What is X?"] = Except.error "KeyError" :=
  rfl

/-- Claim C2 (amended): the parser is not total — question lines before any
PART header raise — but once a PART header has been seen it never raises:
for every document list, prepending a "PART A" document yields a parse that
returns a tree, whatever the remaining input contains (instruction lines are
discarded, unrecognized lines fold into the nearest open question or are
dropped, and content before a SECTION goes to the synthetic "General"
section). -/
theorem c2_thm (docs : List String) :
    ∃ t, parse_question_structure (("PART A") :: docs) = Except.ok t := by
  have h0 : runDocs (("PART A") :: docs) initState =
      runDocs docs { sq := [("Part A", [])], cp := some "Part A", cs := none,
                     smi := [], pm := [("Part A", [])] } := rfl
  have hre : Ready { sq := [("Part A", [])], cp := some "Part A", cs := none,
                     smi := [], pm := [("Part A", [])] } := by
    refine ⟨"Part A", rfl, by decide, by decide, ?_⟩
    intro s d hs _
    exact Option.noConfusion hs
  rcases runDocs_ok docs _ hre with ⟨st2, hrun, _⟩
  refine ⟨categorize st2.sq st2.pm, ?_⟩
  unfold parse_question_structure
  rw [h0, hrun]

/-! ## Claim C9 (positivity of mark values) -/

/-- Claim C9 counterexample: a section whose marks-hint line is "3 x 0"
gives its questions mark_value 0, which is not a positive integer. -/
theorem c9_counterexample :
    parse_question_structure ["PART A\nSECTION 1\n3 x 0\n1. Q?"] =
      Except.ok [("Part A - Descriptive Answers",
        [("Section 1",
          [{ number := "1", question := "Q?", marks := 0, is_mcq := false }])])] ∧
    ¬ (1 ≤ (0 : Nat)) :=
  ⟨rfl, by decide⟩

/-- Claim C9 (amended): every question's mark value is produced by
`estimate_marks` from some marks hint, and it is at least 1 unless the hint
contains a multiplier pattern whose per-item value is 0, in which case it
is 0. -/
theorem c9_thm (docs : List String) (t : SQ)
    (hp : parse_question_structure docs = Except.ok t) :
    ∀ pe ∈ t, ∀ se ∈ pe.2, ∀ q ∈ se.2,
      (∃ s, q.marks = estimate_marks s) ∧
      (1 ≤ q.marks ∨ (q.marks = 0 ∧ ∃ s c, findMul s.data = some (c, 0) ∧
        estimate_marks s = 0)) := by
  intro pe hpe se hse q hq
  unfold parse_question_structure at hp
  cases hr : runDocs docs initState with
  | error e =>
    simp only [hr] at hp
    exact Except.noConfusion hp
  | ok st =>
    simp only [hr, Except.ok.injEq] at hp
    have hok : SQOk st.sq := by
      refine runDocs_marks docs initState st ?_ hr
      intro pe2 hpe2
      exact absurd hpe2 (List.not_mem_nil pe2)
    rw [← hp] at hpe
    rcases mem_categorize hpe with ⟨pe0, hpe0, hq2⟩
    rw [hq2] at hse
    rcases hok pe0 hpe0 se hse q hq with ⟨s, hqs⟩
    refine ⟨⟨s, hqs⟩, ?_⟩
    rcases estimate_marks_zero s with h1 | ⟨h1, c, h2⟩
    · left
      rw [hqs]
      exact h1
    · right
      exact ⟨by rw [hqs, h1], s, c, h2, h1⟩

/-- Witness for C9 at a concrete parse whose single question has mark 1. -/
theorem c9_witness :
    (∃ s, (1 : Nat) = estimate_marks s) ∧
    (1 ≤ (1 : Nat) ∨ ((1 : Nat) = 0 ∧ ∃ s c, findMul s.data = some (c, 0) ∧
      estimate_marks s = 0)) :=
  c9_thm ["PART A\n1. Q?"]
    [("Part A - Descriptive Answers",
      [("General", [{ number := "1", question := "Q?", marks := 1, is_mcq := false }])])]
    rfl
    ("Part A - Descriptive Answers",
      [("General", [{ number := "1", question := "Q?", marks := 1, is_mcq := false }])])
    (by decide)
    ("General", [{ number := "1", question := "Q?", marks := 1, is_mcq := false }])
    (by decide)
    { number := "1", question := "Q?", marks := 1, is_mcq := false }
    (by decide)

/-- Witness for C6 at a one-question tree and an always-failing chain. -/
theorem c6_witness :
    answerOne (fun _ => Except.error "boom")
        { number := "1", question := "Q", marks := 1, is_mcq := false } =
      { number := "1", question := "Q",
        answer := "❌ Error generating answer: boom", sources := [], marks := 1 } := by
  obtain ⟨osecs, h1, h2, h3⟩ := c6_thm (fun _ => Except.error "boom")
    [("Part A", [("Section 1",
      [{ number := "1", question := "Q", marks := 1, is_mcq := false }])])]
    (by decide) (by decide)
    ("Part A", [("Section 1",
      [{ number := "1", question := "Q", marks := 1, is_mcq := false }])])
    (by decide)
  exact h3 { number := "1", question := "Q", marks := 1, is_mcq := false } ("boom") rfl

end TextQuest
